import Mathlib

/-!
Verification of the Query Resolution, External Search Aggregation and
Result Cache pipeline of `webapp.py` (class `PriceFinder` and the
`/api/search` endpoint).

Strings are modelled as `List Char` (`Str`); Python truthiness of an
optional string collapses `None` and `""` to the empty list.  Prices are
modelled as exact rationals: every price computed by the code is an exact
two-decimal value for which Python float arithmetic and exact rational
arithmetic agree on all comparisons performed by the code.  Clock reads
inside one call of `search_products` are modelled by a single `now` value.
Python's builtin string `hash` (whose value is unspecified and
process-randomized) is modelled by the identity embedding of the lowercased
query, which is injective; the cache key is `"search_" ++ lower(query)`.
-/

abbrev Str := List Char

/-- ASCII lowercasing of one character, as Python `str.lower` acts on the
ASCII range (all strings compared by the code are ASCII). -/
def lowerChar (c : Char) : Char :=
  if c = 'A' then 'a' else if c = 'B' then 'b' else if c = 'C' then 'c'
  else if c = 'D' then 'd' else if c = 'E' then 'e' else if c = 'F' then 'f'
  else if c = 'G' then 'g' else if c = 'H' then 'h' else if c = 'I' then 'i'
  else if c = 'J' then 'j' else if c = 'K' then 'k' else if c = 'L' then 'l'
  else if c = 'M' then 'm' else if c = 'N' then 'n' else if c = 'O' then 'o'
  else if c = 'P' then 'p' else if c = 'Q' then 'q' else if c = 'R' then 'r'
  else if c = 'S' then 's' else if c = 'T' then 't' else if c = 'U' then 'u'
  else if c = 'V' then 'v' else if c = 'W' then 'w' else if c = 'X' then 'x'
  else if c = 'Y' then 'y' else if c = 'Z' then 'z' else c

/-- Python `s.lower()`. -/
def lowerStr (s : Str) : Str := s.map lowerChar

/-- `w` is a prefix of `s`, as a boolean. -/
def prefixOfB : Str → Str → Bool
  | [], _ => true
  | _ :: _, [] => false
  | a :: w, b :: s => a = b && prefixOfB w s

/-- Python substring containment `w in s`, as a boolean. -/
def subStrB (w : Str) : Str → Bool
  | [] => w.isEmpty
  | c :: s => prefixOfB w (c :: s) || subStrB w s

/-- Python whitespace (`str.strip` / regex `\s`) on the ASCII range. -/
def isSpaceChar (c : Char) : Bool :=
  c.toNat = 32 || c.toNat = 9 || c.toNat = 10 || c.toNat = 11 ||
  c.toNat = 12 || c.toNat = 13

/-- Python `str.strip()`. -/
def pyStrip (s : Str) : Str :=
  ((s.dropWhile isSpaceChar).reverse.dropWhile isSpaceChar).reverse

/-- ASCII decimal digit (regex `\d` on the ASCII range). -/
def isDigitChar (c : Char) : Bool := 48 ≤ c.toNat && c.toNat ≤ 57

/-- `html.escape` of one character (`quote=True` default: `&`, `<`, `>`,
`"` and `'` become entities). -/
def escChar (c : Char) : Str :=
  if c = '&' then "&amp;".toList
  else if c = '<' then "&lt;".toList
  else if c = '>' then "&gt;".toList
  else if c = Char.ofNat 34 then "&quot;".toList
  else if c = Char.ofNat 39 then "&#x27;".toList
  else [c]

/-- `html.escape(s)`: the chained `str.replace` calls of CPython's
`html.escape` are equivalent to this character-wise expansion because no
replacement target occurs in any inserted entity text. -/
def html_escape (s : Str) : Str := s.flatMap escChar

/-- `PriceFinder._clean_text`: empty text becomes the placeholder, other
text is truncated to 120 characters and HTML-escaped. -/
def clean_text (text : Str) : Str :=
  if text = [] then "Sin informacion".toList else html_escape (text.take 120)

/-- `PriceFinder.blacklisted_stores`. -/
def blacklisted_stores : List Str :=
  ["alibaba".toList, "aliexpress".toList, "temu".toList, "wish".toList,
   "banggood".toList, "dhgate".toList, "falabella".toList, "ripley".toList,
   "linio".toList, "mercadolibre".toList]

/-- `PriceFinder._is_blacklisted_store`. -/
def is_blacklisted_store (source : Str) : Bool :=
  if source = [] then false
  else blacklisted_stores.any (fun b => subStrB b (lowerStr source))

/-- UTF-8 bytes of a character (used by `urllib.parse.quote_plus`). -/
def utf8Bytes (c : Char) : List Nat :=
  let n := c.toNat
  if n < 128 then [n]
  else if n < 2048 then [192 + n / 64, 128 + n % 64]
  else if n < 65536 then [224 + n / 4096, 128 + (n / 64) % 64, 128 + n % 64]
  else [240 + n / 262144, 128 + (n / 4096) % 64, 128 + (n / 64) % 64, 128 + n % 64]

/-- Uppercase hexadecimal digit. -/
def hexDigitChar (n : Nat) : Char :=
  if n < 10 then Char.ofNat (48 + n) else Char.ofNat (55 + n)

/-- Percent-encoding of one byte. -/
def quoteByte (b : Nat) : Str := ['%', hexDigitChar (b / 16), hexDigitChar (b % 16)]

/-- `urllib.parse.quote_plus` on one character: space becomes `+`,
unreserved characters stay, everything else is percent-encoded bytewise. -/
def quotePlusChar (c : Char) : Str :=
  if c = ' ' then ['+']
  else if c.isAlphanum || c = '-' || c = '_' || c = '.' || c = '~' then [c]
  else (utf8Bytes c).flatMap quoteByte

/-- `urllib.parse.quote_plus(s)`. -/
def quote_plus (s : Str) : Str := s.flatMap quotePlusChar

/-- Round a rational to two decimals (`round(x, 2)`; on every value the
code produces the argument is already an exact two-decimal value, so the
tie-breaking rule is never exercised). -/
def round2 (q : ℚ) : ℚ := (round (q * 100) : ℚ) / 100

/-- `PriceFinder._generate_realistic_price`. -/
def generate_realistic_price (query : Str) (index : ℕ) : ℚ :=
  let ql := lowerStr query
  let base : ℚ :=
    if subStrB "phone".toList ql || subStrB "laptop".toList ql then 400
    else if subStrB "shirt".toList ql || subStrB "shoes".toList ql then 35
    else 25
  round2 (base * (1 + index * (15 / 100)))

/-- Greedy `\d{1,4}`: up to four leading digits, at least one; returns the
digits and the rest of the input. -/
def matchDigits14 (s : Str) : Option (Str × Str) :=
  let ds := (s.takeWhile isDigitChar).take 4
  if ds = [] then none else some (ds, s.drop ds.length)

/-- Greedy `(?:,\d{3})*`: comma-separated thousands groups. -/
def matchCommaGroups : Str → Str × Str
  | ',' :: a :: b :: c :: rest =>
    if isDigitChar a && isDigitChar b && isDigitChar c then
      let p := matchCommaGroups rest
      (',' :: a :: b :: c :: p.1, p.2)
    else ([], ',' :: a :: b :: c :: rest)
  | s => ([], s)

/-- Optional `(?:\.\d{2})?`: a two-decimal fraction. -/
def matchFraction : Str → Str × Str
  | '.' :: a :: b :: rest =>
    if isDigitChar a && isDigitChar b then (['.', a, b], rest)
    else ([], '.' :: a :: b :: rest)
  | s => ([], s)

/-- Match of `\$\s*(\d{1,4}(?:,\d{3})*(?:\.\d{2})?)` anchored at the start
of the input, returning group 1.  The trailing parts of the pattern are all
optional, so Python's backtracking engine behaves exactly greedily here. -/
def matchPriceAt : Str → Option Str
  | [] => none
  | c :: rest =>
    if c = '$' then
      match matchDigits14 (rest.dropWhile isSpaceChar) with
      | none => none
      | some (ds, rest2) =>
        let cg := matchCommaGroups rest2
        let fr := matchFraction cg.2
        some (ds ++ cg.1 ++ fr.1)
    else none

/-- `re.search` for the price pattern: leftmost match wins. -/
def searchPrice : Str → Option Str
  | [] => none
  | c :: rest =>
    match matchPriceAt (c :: rest) with
    | some g => some g
    | none => searchPrice rest

/-- Numeric value of a digit string. -/
def digitsToNat (s : Str) : ℕ := s.foldl (fun n c => 10 * n + (c.toNat - 48)) 0

/-- `float(group.replace(',', ''))` for a matched price group: strip the
commas, split at the decimal point. -/
def parsePriceGroup (g : Str) : ℚ :=
  let g' := g.filter (fun c => c ≠ ',')
  let intPart := g'.takeWhile (fun c => c ≠ '.')
  let frac := (g'.dropWhile (fun c => c ≠ '.')).drop 1
  (digitsToNat intPart : ℚ) + (digitsToNat frac : ℚ) / (10 ^ frac.length : ℕ)

/-- `PriceFinder._extract_price`. -/
def extract_price (price_str : Str) : ℚ :=
  match searchPrice price_str with
  | none => 0
  | some g =>
    let v := parsePriceGroup g
    if 0.01 ≤ v ∧ v ≤ 50000 then v else 0

/-- One offer record as built by the pipeline.  `search_source` and
`original_query` are `none` while the corresponding dict keys are absent. -/
structure Offer where
  title : Str
  price : Str
  price_numeric : ℚ
  source : Str
  link : Str
  rating : Str
  reviews : Str
  image : Str
  search_source : Option Str
  original_query : Option Str
deriving DecidableEq, Repr

/-- One entry of the aggregator's result array.  A field is the empty
string when the key is absent (`dict.get` with default `''`); `source` is
an `Option` because its two `get` defaults differ (`''` for the blacklist
check, `'Tienda'` for the stored record). -/
structure Item where
  title : Str
  price : Str
  source : Option Str
  link : Str
  product_link : Str
  rating : Str
  reviews : Str
deriving DecidableEq, Repr

/-- `PriceFinder._get_valid_link`. -/
def get_valid_link (it : Item) : Str :=
  if it.product_link ≠ [] then it.product_link
  else if it.link ≠ [] then it.link
  else if it.title ≠ [] then
    "https://www.google.com/search?tbm=shop&q=".toList ++ quote_plus (it.title.take 50)
  else "#".toList

/-- Two-decimal digit pair of `n % 100`. -/
def twoDigitChars (n : ℕ) : Str :=
  [Char.ofNat (48 + n / 10 % 10), Char.ofNat (48 + n % 10)]

/-- `f"{p:.2f}"` for the nonnegative two-decimal prices the code formats. -/
def format2 (q : ℚ) : Str :=
  let n := (round (q * 100)).toNat
  Nat.toDigits 10 (n / 100) ++ '.' :: twoDigitChars (n % 100)

/-- The entry filter of `PriceFinder._process_results`: an entry is skipped
when its store is blacklisted or its title is missing or shorter than three
characters. -/
def acceptableItem (it : Item) : Bool :=
  !is_blacklisted_store (it.source.getD []) && 3 ≤ it.title.length

/-- The record built for one accepted entry, `idx` being the number of
already-accepted offers in this call. -/
def mkOffer (it : Item) (idx : ℕ) : Offer :=
  let price_num0 := extract_price it.price
  { title := clean_text it.title
    price := if price_num0 = 0 then '$' :: format2 (generate_realistic_price it.title idx)
             else it.price
    price_numeric := if price_num0 = 0 then generate_realistic_price it.title idx
                     else price_num0
    source := clean_text (it.source.getD "Tienda".toList)
    link := get_valid_link it
    rating := it.rating
    reviews := it.reviews
    image := []
    search_source := none
    original_query := none }

/-- The accumulation loop of `PriceFinder._process_results` over the first
three entries (with the `len(products) >= 3` break). -/
def processGo : List Item → List Offer → List Offer
  | [], acc => acc
  | it :: rest, acc =>
    if acceptableItem it then
      let acc2 := acc ++ [mkOffer it acc.length]
      if 3 ≤ acc2.length then acc2 else processGo rest acc2
    else processGo rest acc

/-- `PriceFinder._process_results` for the `google_shopping` engine.
`none` stands for a failed request or a payload without the
`shopping_results` key (both return `[]`). -/
def process_results : Option (List Item) → List Offer
  | none => []
  | some entries => processGo (entries.take 3) []

/-- Titles of the three synthetic example offers. -/
def exampleTag : ℕ → Str
  | 0 => "Mejor Precio".toList
  | 1 => "Oferta".toList
  | _ => "Popular".toList

/-- Ratings of the three synthetic example offers. -/
def exampleRating : ℕ → Str
  | 0 => "4.5".toList
  | 1 => "4.2".toList
  | _ => "4.0".toList

/-- Review counts of the three synthetic example offers. -/
def exampleReviews : ℕ → Str
  | 0 => "500".toList
  | 1 => "300".toList
  | _ => "200".toList

/-- Store rotation of the three synthetic example offers. -/
def exampleStore : ℕ → Str
  | 0 => "Amazon".toList
  | 1 => "Walmart".toList
  | _ => "Target".toList

/-- Store-specific search link of one synthetic example offer. -/
def exampleLink (i : ℕ) (query : Str) : Str :=
  let sq := quote_plus (query.take 30)
  if i = 0 then "https://www.amazon.com/s?k=".toList ++ sq
  else if i = 1 then "https://www.walmart.com/search?q=".toList ++ sq
  else "https://www.target.com/s?searchTerm=".toList ++ sq

/-- One synthetic example offer of `PriceFinder._get_examples`. -/
def exampleOffer (query : Str) (i : ℕ) : Offer :=
  { title := clean_text query ++ " - ".toList ++ exampleTag i
    price := '$' :: format2 (generate_realistic_price query i)
    price_numeric := generate_realistic_price query i
    source := exampleStore i
    link := exampleLink i query
    rating := exampleRating i
    reviews := exampleReviews i
    image := []
    search_source := some "example".toList
    original_query := none }

/-- `PriceFinder._get_examples`. -/
def get_examples (query : Str) : List Offer :=
  [exampleOffer query 0, exampleOffer query 1, exampleOffer query 2]

/-- The process-wide result cache: an association list in dict insertion
order, each value paired with its insertion timestamp. -/
abbrev Cache := List (Str × (List Offer × ℕ))

/-- `self.cache_ttl`. -/
def cache_ttl : ℕ := 180

/-- Cache key `f"search_{hash(final_query.lower())}"`, with the builtin
hash modelled as the identity embedding of the lowercased query. -/
def cacheKey (final_query : Str) : Str := "search_".toList ++ lowerStr final_query

/-- Dict lookup. -/
def lookupCache : Cache → Str → Option (List Offer × ℕ)
  | [], _ => none
  | e :: r, k => if e.1 = k then some e.2 else lookupCache r k

/-- Dict assignment: overwrite in place, or append a fresh key. -/
def assocSet : Cache → Str → List Offer × ℕ → Cache
  | [], k, v => [(k, v)]
  | e :: r, k, v => if e.1 = k then (k, v) :: r else e :: assocSet r k v

/-- Smallest stored timestamp (`min` over the dict, left fold). -/
def minTsAux : ℕ → Cache → ℕ
  | m, [] => m
  | m, e :: r => minTsAux (min m e.2.2) r

/-- Smallest stored timestamp of a nonempty cache. -/
def minTs : Cache → ℕ
  | [] => 0
  | e :: r => minTsAux e.2.2 r

/-- Delete the first entry carrying the given timestamp (Python's `min`
over dict keys returns the first key attaining the minimum). -/
def delFirstWithTs (m : ℕ) : Cache → Cache
  | [] => []
  | e :: r => if e.2.2 = m then r else e :: delFirstWithTs m r

/-- The cache store step of `search_products`: insert under the key with
the current timestamp, then, if the dict now holds more than ten keys,
delete the single entry with the smallest timestamp. -/
def cachePut (st : Cache) (k : Str) (v : List Offer) (now : ℕ) : Cache :=
  let c1 := assocSet st k (v, now)
  if 10 < c1.length then delFirstWithTs (minTs c1) c1 else c1

/-- Stable ascending insertion by `price_numeric`. -/
def insertOffer (o : Offer) : List Offer → List Offer
  | [] => [o]
  | x :: r =>
    if o.price_numeric ≤ x.price_numeric then o :: x :: r
    else x :: insertOffer o r

/-- `list.sort(key=lambda x: x['price_numeric'])`: Python's sort is stable,
and a stable ascending sort is uniquely determined by its key, so insertion
sort is an exact model. -/
def sortOffers : List Offer → List Offer
  | [] => []
  | x :: r => insertOffer x (sortOffers r)

/-- The per-request environment: module flags, collaborator responses and
the clock, all fixed for the duration of one call. -/
structure Env where
  gemini_ready : Bool
  pil_available : Bool
  valid_image : Bool
  gemini_result : Option Str
  api_key : Bool
  api_response : Option (List Item)
  now : ℕ
deriving DecidableEq, Repr

/-- The query-fusion prelude of `search_products`: final query (still
unstripped, `[]` standing for Python `None`/`""`) and provenance tag. -/
def compose_query (env : Env) (query : Str) (image_present : Bool) : Str × Str :=
  if image_present && env.gemini_ready && env.pil_available then
    if env.valid_image then
      if query ≠ [] then
        match env.gemini_result with
        | some iq =>
          if iq ≠ [] then (query ++ ' ' :: iq, "combined".toList)
          else (query, "text_fallback".toList)
        | none => (query, "text_fallback".toList)
      else (env.gemini_result.getD [], "image".toList)
    else ((if query ≠ [] then query else "producto".toList), "text".toList)
  else ((if query ≠ [] then query else "producto".toList), "text".toList)

/-- The metadata stamp applied to every surviving record on the live-fetch
path. -/
def stampOffer (src query : Str) (o : Offer) : Offer :=
  { o with
    search_source := some src
    original_query := some (if query ≠ [] then query else "imagen".toList) }

/-- The live-fetch tail of `search_products`: aggregator call, result
processing, fallback on empty, stable sort, truncation to six, metadata
stamp, cache store. -/
def live_fetch (env : Env) (final_query src query : Str) (st : Cache) :
    List Offer × Cache :=
  let products := process_results env.api_response
  let all_products := if products = [] then get_examples final_query else products
  let final_products := ((sortOffers all_products).take 6).map (stampOffer src query)
  (final_products, cachePut st (cacheKey final_query) final_products env.now)

/-- `PriceFinder.search_products`, returning the offer list and the cache
after the call. -/
def search_products (env : Env) (query : Str) (image_present : Bool) (st : Cache) :
    List Offer × Cache :=
  let fs := compose_query env query image_present
  if fs.1 = [] || (pyStrip fs.1).length < 2 then (get_examples "producto".toList, st)
  else
    let final_query := pyStrip fs.1
    if env.api_key = false then (get_examples final_query, st)
    else
      match lookupCache st (cacheKey final_query) with
      | some cd =>
        if env.now - cd.2 < cache_ttl then (cd.1, st)
        else live_fetch env final_query fs.2 query st
      | none => live_fetch env final_query fs.2 query st

/-- An uploaded image file as `api_search` sees it: whether `read()`
succeeds and how many bytes it yields.  `none` models an absent file or an
empty filename. -/
structure ImageUpload where
  read_ok : Bool
  size : ℕ
deriving DecidableEq, Repr

/-- The 10 MB upload limit of `api_search`. -/
def MAX_IMAGE_BYTES : ℕ := 10 * 1024 * 1024

/-- Outcome of the `/api/search` endpoint. -/
inductive ApiResult where
  | ok (products : List Offer) (st : Cache)
  | fail (error : Str) (status : ℕ)
deriving DecidableEq, Repr

/-- The part of `api_search` after image intake: empty-request rejection,
80-character query truncation, then the search itself. -/
def api_search_cont (rawQuery : Str) (image_present : Bool) (env : Env)
    (st : Cache) : ApiResult :=
  let query := pyStrip rawQuery
  if query = [] && !image_present then
    .fail "Debe proporcionar una consulta o una imagen".toList 400
  else
    let q := if 80 < query.length then query.take 80 else query
    let r := search_products env q image_present st
    .ok r.1 r.2

/-- The `/api/search` endpoint (`api_search`): image intake with the read
and size checks, then the common continuation.  `rawQuery` is the raw form
field (`[]` for absent or empty). -/
def api_search (rawQuery : Str) (img : Option ImageUpload) (env : Env)
    (st : Cache) : ApiResult :=
  match img with
  | some f =>
    if f.read_ok = false then .fail "Error al procesar la imagen".toList 400
    else if MAX_IMAGE_BYTES < f.size then
      .fail "La imagen es demasiado grande (máximo 10MB)".toList 400
    else api_search_cont rawQuery (decide (f.size ≠ 0)) env st
  | none => api_search_cont rawQuery false env st

/-- Whether an `ApiResult` is a caller-visible rejection. -/
def isFailResult : ApiResult → Bool
  | .ok _ _ => false
  | .fail _ _ => true

/-! ### Boolean substring tests versus `List.IsPrefix` / `List.IsInfix` -/

theorem prefixOfB_iff : ∀ (w s : Str), prefixOfB w s = true ↔ w <+: s
  | [], s => by simp [prefixOfB]
  | _ :: _, [] => by simp [prefixOfB]
  | a :: w, b :: s => by
    simp [prefixOfB, prefixOfB_iff w s, List.cons_prefix_cons]

theorem subStrB_iff : ∀ (s w : Str), subStrB w s = true ↔ w <:+: s
  | [], w => by cases w <;> simp [subStrB]
  | c :: s, w => by
    simp [subStrB, prefixOfB_iff, subStrB_iff s w, List.infix_cons_iff]

/-! ### Occurrence decomposition lemmas -/

theorem prefix_append_split {α : Type} {l b : List α} :
    ∀ {a : List α}, l <+: a ++ b → l <+: a ∨ ∃ v, l = a ++ v ∧ v <+: b
  | [], h => Or.inr ⟨l, rfl, h⟩
  | x :: a', h => by
    rcases l with _ | ⟨y, l'⟩
    · exact Or.inl List.nil_prefix
    · rw [List.cons_append, List.cons_prefix_cons] at h
      obtain ⟨rfl, h'⟩ := h
      rcases prefix_append_split h' with h'' | ⟨v, rfl, hv⟩
      · exact Or.inl (List.cons_prefix_cons.mpr ⟨rfl, h''⟩)
      · exact Or.inr ⟨v, by simp, hv⟩

theorem infix_append_split {α : Type} {w b : List α} :
    ∀ {a : List α}, w <:+: a ++ b →
      w <:+: a ∨ w <:+: b ∨
      ∃ w₁ w₂, w = w₁ ++ w₂ ∧ w₁ ≠ [] ∧ w₂ ≠ [] ∧ w₁ <:+ a ∧ w₂ <+: b
  | [], h => Or.inr (Or.inl (by simp only [List.nil_append] at h; exact h))
  | x :: a', h => by
    rw [List.cons_append, List.infix_cons_iff] at h
    rcases h with h | h
    · rcases w with _ | ⟨y, w'⟩
      · exact Or.inl List.nil_infix
      · rw [List.cons_prefix_cons] at h
        obtain ⟨rfl, h'⟩ := h
        rcases prefix_append_split h' with h'' | ⟨v, rfl, hv⟩
        · exact Or.inl (List.cons_prefix_cons.mpr ⟨rfl, h''⟩).isInfix
        · rcases eq_or_ne v [] with rfl | hvne
          · exact Or.inl (by simp only [List.append_nil]; exact List.infix_refl _)
          · exact Or.inr (Or.inr ⟨y :: a', v, by simp, by simp, hvne,
              List.suffix_refl _, hv⟩)
    · rcases infix_append_split h with h' | h' | ⟨w₁, w₂, rfl, h₁, h₂, h₃, h₄⟩
      · exact Or.inl (List.infix_cons h')
      · exact Or.inr (Or.inl h')
      · exact Or.inr (Or.inr ⟨w₁, w₂, rfl, h₁, h₂, h₃.trans (List.suffix_cons x a'), h₄⟩)

theorem suffix_singleton {α : Type} {w : List α} {c : α} (h : w <:+ [c]) :
    w = [] ∨ w = [c] := by
  obtain ⟨p, hp⟩ := h
  rcases p with _ | ⟨y, p'⟩
  · exact Or.inr hp
  · left
    have hl := congrArg List.length hp
    simp only [List.length_append, List.length_cons, List.length_nil] at hl
    exact List.length_eq_zero.mp (by omega)

theorem getLast?_of_suffix {α : Type} {w l : List α} (h : w <:+ l) (hw : w ≠ []) :
    l.getLast? = w.getLast? := by
  obtain ⟨p, rfl⟩ := h
  exact List.getLast?_append_of_ne_nil p hw

theorem mem_of_getLast?_eq {α : Type} {w : List α} {x : α}
    (h : w.getLast? = some x) : x ∈ w := by
  have hx : x ∈ w.getLast? := h
  obtain ⟨hne, rfl⟩ := List.mem_getLast?_eq_getLast hx
  exact List.getLast_mem hne

/-! ### `html.escape` introduces no new letter-only substrings -/

/-- The five entity strings `html.escape` can produce. -/
def entityList : List Str :=
  ["&amp;".toList, "&lt;".toList, "&gt;".toList, "&quot;".toList, "&#x27;".toList]

theorem escChar_cases (c : Char) : escChar c = [c] ∨ escChar c ∈ entityList := by
  unfold escChar
  split
  · right; subst_eqs; decide
  split
  · right; subst_eqs; decide
  split
  · right; subst_eqs; decide
  split
  · right; subst_eqs; decide
  split
  · right; subst_eqs; decide
  · left; rfl

theorem entity_getLast (e : Str) (he : e ∈ entityList) : e.getLast? = some ';' := by
  fin_cases he <;> decide

theorem entity_head (e : Str) (he : e ∈ entityList) : ∃ t, e = '&' :: t := by
  fin_cases he <;> exact ⟨_, rfl⟩

theorem prefix_flatMap_pieces {f : Char → Str} {g : Char → Char}
    (hshape : ∀ c, f c = [g c] ∨ f c ∈ entityList) :
    ∀ {w : Str}, '&' ∉ w → ∀ s : Str, w <+: s.flatMap f → w <+: s.map g := by
  intro w
  induction w with
  | nil => exact fun _ s _ => List.nil_prefix
  | cons x w' ih =>
    intro hamp s h
    rcases s with _ | ⟨c, s'⟩
    · simp at h
    · rw [List.flatMap_cons] at h
      rcases hshape c with hc | hc
      · rw [hc] at h
        simp only [List.cons_append, List.nil_append, List.cons_prefix_cons] at h
        obtain ⟨rfl, h'⟩ := h
        have hw' : '&' ∉ w' := fun hm => hamp (List.mem_cons_of_mem _ hm)
        exact List.cons_prefix_cons.mpr ⟨rfl, ih hw' s' h'⟩
      · obtain ⟨t, ht⟩ := entity_head _ hc
        rw [ht] at h
        simp only [List.cons_append, List.cons_prefix_cons] at h
        obtain ⟨rfl, -⟩ := h
        exact absurd (List.mem_cons_self _ _) hamp

theorem infix_flatMap_pieces {f : Char → Str} {g : Char → Char}
    (hshape : ∀ c, f c = [g c] ∨ f c ∈ entityList) {w : Str}
    (hlen : 2 ≤ w.length) (h1 : '&' ∉ w) (h2 : ';' ∉ w)
    (h3 : ∀ e ∈ entityList, ¬ w <:+: e) :
    ∀ s : Str, w <:+: s.flatMap f → w <:+: s.map g := by
  intro s
  induction s with
  | nil =>
    intro h
    simp at h
    simp [h] at hlen
  | cons c s' ih =>
    intro h
    rw [List.flatMap_cons] at h
    rcases infix_append_split h with h' | h' | ⟨w₁, w₂, rfl, hw₁, hw₂, hsuf, hpre⟩
    · rcases hshape c with hc | hc
      · rw [hc] at h'
        have := h'.length_le
        simp at this
        omega
      · exact absurd h' (h3 _ hc)
    · exact List.infix_cons (ih h')
    · rcases hshape c with hc | hc
      · rw [hc] at hsuf
        rcases suffix_singleton hsuf with rfl | rfl
        · exact absurd rfl hw₁
        · have hw₂' : '&' ∉ w₂ := fun hm => h1 (List.mem_append_right _ hm)
          have : w₂ <+: s'.map g := prefix_flatMap_pieces hshape hw₂' s' hpre
          exact (List.cons_prefix_cons.mpr ⟨rfl, this⟩ :
            ([g c] ++ w₂ : Str) <+: g c :: s'.map g).isInfix
      · have hlast : w₁.getLast? = some ';' := by
          rw [← getLast?_of_suffix hsuf hw₁]
          exact entity_getLast _ hc
        have : (';' : Char) ∈ w₁ ++ w₂ :=
          List.mem_append_left _ (mem_of_getLast?_eq hlast)
        exact absurd this h2

/-! ### The stored (escaped) store name stays clear of the blacklist -/

theorem entity_map_lower (e : Str) (he : e ∈ entityList) : e.map lowerChar = e := by
  fin_cases he <;> decide

theorem lowEsc_cases (c : Char) :
    (escChar c).map lowerChar = [lowerChar c] ∨
    (escChar c).map lowerChar ∈ entityList := by
  rcases escChar_cases c with h | h
  · rw [h]; left; rfl
  · right; rw [entity_map_lower _ h]; exact h

theorem lowerStr_html_escape (s : Str) :
    lowerStr (html_escape s) = s.flatMap (fun c => (escChar c).map lowerChar) := by
  unfold lowerStr html_escape
  induction s with
  | nil => rfl
  | cons c s' ih => simp only [List.flatMap_cons, List.map_append, ih]

theorem blacklist_words_ok :
    ∀ b ∈ blacklisted_stores, 2 ≤ b.length ∧ ('&' ∉ b) ∧ (';' ∉ b) ∧
      ∀ e ∈ entityList, subStrB b e = false := by decide

theorem clean_text_keeps_not_blacklisted {raw : Str}
    (h : is_blacklisted_store raw = false) :
    is_blacklisted_store (clean_text raw) = false := by
  rcases eq_or_ne raw [] with rfl | hne
  · decide
  · unfold clean_text
    rw [if_neg hne]
    unfold is_blacklisted_store
    split
    · rfl
    · rw [List.any_eq_false]
      intro b hb
      simp only [Bool.not_eq_true]
      by_contra hcon
      rw [Bool.not_eq_false, subStrB_iff] at hcon
      rw [lowerStr_html_escape] at hcon
      obtain ⟨hlen, hamp, hsemi, hent⟩ := blacklist_words_ok b hb
      have hent' : ∀ e ∈ entityList, ¬ b <:+: e := by
        intro e he hbe
        rw [← subStrB_iff, hent e he] at hbe
        exact Bool.false_ne_true hbe
      have h1 : b <:+: lowerStr (raw.take 120) :=
        infix_flatMap_pieces lowEsc_cases hlen hamp hsemi hent' _ hcon
      have h2 : b <:+: lowerStr raw := by
        refine h1.trans ?_
        unfold lowerStr
        rw [List.map_take]
        exact (List.take_prefix _ _).isInfix
      unfold is_blacklisted_store at h
      rw [if_neg hne, List.any_eq_false] at h
      exact (h b hb) ((subStrB_iff _ _).mpr h2)

/-! ### Properties of the stable insertion sort -/

/-- Ascending price order between two offers. -/
def priceLE (a b : Offer) : Prop := a.price_numeric ≤ b.price_numeric

theorem insertOffer_length (o : Offer) :
    ∀ l, (insertOffer o l).length = l.length + 1 := by
  intro l
  induction l with
  | nil => rfl
  | cons x r ih =>
    unfold insertOffer
    split
    · simp only [List.length_cons]
    · simp only [List.length_cons, ih]

theorem sortOffers_length : ∀ l, (sortOffers l).length = l.length
  | [] => rfl
  | x :: r => by
    unfold sortOffers
    rw [insertOffer_length, sortOffers_length r, List.length_cons]

theorem mem_insertOffer {o x : Offer} :
    ∀ {l}, x ∈ insertOffer o l ↔ x = o ∨ x ∈ l := by
  intro l
  induction l with
  | nil => simp [insertOffer]
  | cons y r ih =>
    unfold insertOffer
    split
    · simp [or_comm, or_assoc, or_left_comm]
    · simp only [List.mem_cons, ih]
      tauto

theorem mem_sortOffers {x : Offer} : ∀ {l}, x ∈ sortOffers l ↔ x ∈ l
  | [] => Iff.rfl
  | y :: r => by
    unfold sortOffers
    rw [mem_insertOffer]
    simp [@mem_sortOffers x r]

theorem insertOffer_pairwise {o : Offer} :
    ∀ {l}, List.Pairwise priceLE l → List.Pairwise priceLE (insertOffer o l) := by
  intro l
  induction l with
  | nil => intro; simp [insertOffer, List.pairwise_singleton]
  | cons x r ih =>
    intro h
    rw [List.pairwise_cons] at h
    obtain ⟨hx, hr⟩ := h
    unfold insertOffer
    split
    · next hle =>
      rw [List.pairwise_cons]
      refine ⟨?_, List.pairwise_cons.mpr ⟨hx, hr⟩⟩
      intro b hb
      rcases List.mem_cons.mp hb with rfl | hb'
      · exact hle
      · exact le_trans hle (hx b hb')
    · next hgt =>
      rw [List.pairwise_cons]
      refine ⟨?_, ih hr⟩
      intro b hb
      rcases mem_insertOffer.mp hb with rfl | hb'
      · exact le_of_lt (lt_of_not_le hgt)
      · exact hx b hb'

theorem sortOffers_pairwise : ∀ l, List.Pairwise priceLE (sortOffers l)
  | [] => List.Pairwise.nil
  | x :: r => insertOffer_pairwise (sortOffers_pairwise r)

theorem insertOffer_filter_eq {o : Offer} {q : ℚ} (h : o.price_numeric = q) :
    ∀ l, (insertOffer o l).filter (fun x => decide (x.price_numeric = q)) =
      o :: l.filter (fun x => decide (x.price_numeric = q)) := by
  intro l
  induction l with
  | nil => simp [insertOffer, List.filter, h]
  | cons x r ih =>
    unfold insertOffer
    split
    · simp [List.filter_cons, h]
    · next hgt =>
      have hx : ¬ x.price_numeric = q := by
        intro he
        exact hgt (le_of_eq (h.trans he.symm))
      simp only [List.filter_cons, decide_eq_true_eq, if_neg hx, ih]

theorem insertOffer_filter_ne {o : Offer} {q : ℚ} (h : ¬ o.price_numeric = q) :
    ∀ l, (insertOffer o l).filter (fun x => decide (x.price_numeric = q)) =
      l.filter (fun x => decide (x.price_numeric = q)) := by
  intro l
  induction l with
  | nil => simp [insertOffer, List.filter, h]
  | cons x r ih =>
    unfold insertOffer
    split
    · simp [List.filter_cons, h]
    · simp only [List.filter_cons, ih]

theorem sortOffers_stable : ∀ (l : List Offer) (q : ℚ),
    (sortOffers l).filter (fun x => decide (x.price_numeric = q)) =
      l.filter (fun x => decide (x.price_numeric = q))
  | [], _ => rfl
  | x :: r, q => by
    unfold sortOffers
    by_cases h : x.price_numeric = q
    · rw [insertOffer_filter_eq h, sortOffers_stable r q,
        List.filter_cons_of_pos (by simp [h])]
    · rw [insertOffer_filter_ne h, sortOffers_stable r q,
        List.filter_cons_of_neg (by simp [h])]

/-! ### Price bounds -/

theorem round2_eq_of_mul100 {q : ℚ} {n : ℕ} (h : q * 100 = (n : ℚ)) :
    round2 q = (n : ℚ) / 100 := by
  unfold round2
  rw [h, round_natCast]
  push_cast
  ring

theorem generate_realistic_price_eval (query : Str) :
    ∃ b : ℕ, (b = 400 ∨ b = 35 ∨ b = 25) ∧
      ∀ i : ℕ, generate_realistic_price query i =
        ((b * 100 + i * 15 * b : ℕ) : ℚ) / 100 := by
  unfold generate_realistic_price
  dsimp only
  by_cases h1 : (subStrB "phone".toList (lowerStr query) ||
      subStrB "laptop".toList (lowerStr query)) = true
  · refine ⟨400, Or.inl rfl, fun i => ?_⟩
    rw [if_pos h1]
    exact round2_eq_of_mul100 (by push_cast; ring)
  · by_cases h2 : (subStrB "shirt".toList (lowerStr query) ||
        subStrB "shoes".toList (lowerStr query)) = true
    · refine ⟨35, Or.inr (Or.inl rfl), fun i => ?_⟩
      rw [if_neg h1, if_pos h2]
      exact round2_eq_of_mul100 (by push_cast; ring)
    · refine ⟨25, Or.inr (Or.inr rfl), fun i => ?_⟩
      rw [if_neg h1, if_neg h2]
      exact round2_eq_of_mul100 (by push_cast; ring)

theorem generate_realistic_price_range (query : Str) {i : ℕ} (hi : i ≤ 2) :
    0.01 ≤ generate_realistic_price query i ∧
      generate_realistic_price query i ≤ 50000 := by
  obtain ⟨b, hb, he⟩ := generate_realistic_price_eval query
  rw [he i]
  have h1 : 2500 ≤ b * 100 + i * 15 * b := by rcases hb with rfl | rfl | rfl <;> omega
  have h2 : b * 100 + i * 15 * b ≤ 52000 := by rcases hb with rfl | rfl | rfl <;> omega
  constructor
  · have hstep : ((2500 : ℕ) : ℚ) / 100 ≤ ((b * 100 + i * 15 * b : ℕ) : ℚ) / 100 := by
      gcongr
    exact le_trans (by norm_num) hstep
  · have hstep : ((b * 100 + i * 15 * b : ℕ) : ℚ) / 100 ≤ ((52000 : ℕ) : ℚ) / 100 := by
      gcongr
    exact le_trans hstep (by norm_num)

theorem generate_realistic_price_mono (query : Str) {i j : ℕ} (hij : i ≤ j) :
    generate_realistic_price query i ≤ generate_realistic_price query j := by
  obtain ⟨b, hb, he⟩ := generate_realistic_price_eval query
  rw [he i, he j]
  have hstep : b * 100 + i * 15 * b ≤ b * 100 + j * 15 * b := by
    rcases hb with rfl | rfl | rfl <;> omega
  gcongr

theorem extract_price_range (s : Str) :
    extract_price s = 0 ∨ (0.01 ≤ extract_price s ∧ extract_price s ≤ 50000) := by
  rcases hE : searchPrice s with - | g
  · left
    unfold extract_price
    rw [hE]
  · unfold extract_price
    rw [hE]
    dsimp only
    split
    · next h => exact Or.inr h
    · exact Or.inl rfl

/-! ### Properties of `_process_results` -/

theorem acceptableItem_not_blacklisted {it : Item} (h : acceptableItem it = true) :
    is_blacklisted_store (it.source.getD []) = false := by
  unfold acceptableItem at h
  simp only [Bool.and_eq_true, Bool.not_eq_true'] at h
  exact h.1

theorem mkOffer_source_ok {it : Item} (h : acceptableItem it = true) (idx : ℕ) :
    is_blacklisted_store (mkOffer it idx).source = false := by
  have hb := acceptableItem_not_blacklisted h
  show is_blacklisted_store (clean_text (it.source.getD "Tienda".toList)) = false
  cases hs : it.source with
  | none => decide
  | some raw =>
    rw [hs] at hb
    simp only [Option.getD_some] at hb ⊢
    exact clean_text_keeps_not_blacklisted hb

theorem mkOffer_price_range (it : Item) {idx : ℕ} (hidx : idx ≤ 2) :
    0.01 ≤ (mkOffer it idx).price_numeric ∧
      (mkOffer it idx).price_numeric ≤ 50000 := by
  have hval : (mkOffer it idx).price_numeric =
      (if extract_price it.price = 0 then generate_realistic_price it.title idx
       else extract_price it.price) := rfl
  rw [hval]
  by_cases h : extract_price it.price = 0
  · rw [if_pos h]
    exact generate_realistic_price_range _ hidx
  · rw [if_neg h]
    rcases extract_price_range it.price with h0 | hr
    · exact absurd h0 h
    · exact hr

theorem processGo_forall {P : Offer → Prop}
    (hP : ∀ it idx, acceptableItem it = true → idx ≤ 2 → P (mkOffer it idx)) :
    ∀ (l : List Item) (acc : List Offer), acc.length + l.length ≤ 3 →
      (∀ o ∈ acc, P o) → ∀ o ∈ processGo l acc, P o := by
  intro l
  induction l with
  | nil => intro acc _ hacc o ho; exact hacc o ho
  | cons it rest ih =>
    intro acc hlen hacc o ho
    simp only [processGo] at ho
    rw [List.length_cons] at hlen
    split at ho
    · next hok =>
      have hidx : acc.length ≤ 2 := by omega
      have hacc2 : ∀ x ∈ acc ++ [mkOffer it acc.length], P x := by
        intro x hx
        rcases List.mem_append.mp hx with hx | hx
        · exact hacc x hx
        · rw [List.mem_singleton] at hx
          subst hx
          exact hP it acc.length hok hidx
      split at ho
      · exact hacc2 o ho
      · refine ih (acc ++ [mkOffer it acc.length]) ?_ hacc2 o ho
        rw [List.length_append, List.length_cons, List.length_nil]
        omega
    · exact ih acc (by omega) hacc o ho

theorem processGo_length :
    ∀ (l : List Item) (acc : List Offer), acc.length + l.length ≤ 3 →
      (processGo l acc).length = acc.length + (l.filter acceptableItem).length := by
  intro l
  induction l with
  | nil => intro acc _; simp [processGo]
  | cons it rest ih =>
    intro acc hlen
    simp only [processGo]
    rw [List.length_cons] at hlen
    split
    · next hok =>
      split
      · next hstop =>
        have hrest : rest = [] := by
          rcases rest with - | ⟨a, r⟩
          · rfl
          · exfalso
            rw [List.length_append, List.length_cons, List.length_nil] at hstop
            rw [List.length_cons] at hlen
            omega
        subst hrest
        rw [List.filter_cons_of_pos hok]
        simp
      · next hstop =>
        rw [ih _ (by rw [List.length_append, List.length_cons, List.length_nil]; omega)]
        rw [List.filter_cons_of_pos hok]
        rw [List.length_append, List.length_cons, List.length_cons, List.length_nil]
        omega
    · next hok =>
      rw [ih _ (by omega)]
      rw [List.filter_cons_of_neg (Bool.not_eq_true _ ▸ hok)]

theorem process_results_forall {P : Offer → Prop}
    (hP : ∀ it idx, acceptableItem it = true → idx ≤ 2 → P (mkOffer it idx)) :
    ∀ (data : Option (List Item)), ∀ o ∈ process_results data, P o := by
  intro data o ho
  rcases data with - | entries
  · simp [process_results] at ho
  · refine processGo_forall hP (entries.take 3) [] ?_ (by simp) o ho
    simp only [List.length_nil, Nat.zero_add]
    exact List.length_take_le 3 entries

theorem process_results_length (entries : List Item) :
    (process_results (some entries)).length =
      ((entries.take 3).filter acceptableItem).length := by
  show (processGo (entries.take 3) []).length = _
  rw [processGo_length (entries.take 3) []
    (by rw [List.length_nil, Nat.zero_add]; exact List.length_take_le 3 entries)]
  simp

theorem process_results_le3 (data : Option (List Item)) :
    (process_results data).length ≤ 3 := by
  rcases data with - | entries
  · simp [process_results]
  · rw [process_results_length]
    calc ((entries.take 3).filter acceptableItem).length
        ≤ (entries.take 3).length := List.length_filter_le _ _
    _ ≤ 3 := List.length_take_le 3 entries

/-! ### Cache lemmas -/

theorem mem_assocSet : ∀ {st : Cache} {k : Str} {v : List Offer × ℕ} (e),
    e ∈ assocSet st k v → e ∈ st ∨ e = (k, v) := by
  intro st
  induction st with
  | nil => intro k v e he; simp [assocSet] at he; exact Or.inr he
  | cons x r ih =>
    intro k v e he
    unfold assocSet at he
    split at he
    · rcases List.mem_cons.mp he with rfl | he'
      · exact Or.inr rfl
      · exact Or.inl (List.mem_cons_of_mem _ he')
    · rcases List.mem_cons.mp he with rfl | he'
      · exact Or.inl (List.mem_cons_self _ _)
      · rcases ih e he' with h | h
        · exact Or.inl (List.mem_cons_of_mem _ h)
        · exact Or.inr h

theorem mem_delFirstWithTs {m : ℕ} : ∀ {st : Cache} (e),
    e ∈ delFirstWithTs m st → e ∈ st := by
  intro st
  induction st with
  | nil => intro e he; simp [delFirstWithTs] at he
  | cons x r ih =>
    intro e he
    unfold delFirstWithTs at he
    split at he
    · exact List.mem_cons_of_mem _ he
    · rcases List.mem_cons.mp he with rfl | he'
      · exact List.mem_cons_self _ _
      · exact List.mem_cons_of_mem _ (ih e he')

theorem mem_cachePut {st : Cache} {k : Str} {v : List Offer} {now : ℕ} (e)
    (h : e ∈ cachePut st k v now) : e ∈ st ∨ e = (k, (v, now)) := by
  unfold cachePut at h
  dsimp only at h
  split at h
  · exact mem_assocSet e (mem_delFirstWithTs e h)
  · exact mem_assocSet e h

theorem lookupCache_mem : ∀ {st : Cache} {k : Str} {cd : List Offer × ℕ},
    lookupCache st k = some cd → (k, cd) ∈ st := by
  intro st
  induction st with
  | nil => intro k cd h; simp [lookupCache] at h
  | cons x r ih =>
    intro k cd h
    unfold lookupCache at h
    split at h
    · next heq =>
      rw [Option.some_inj] at h
      subst heq h
      exact List.mem_cons_self _ _
    · exact List.mem_cons_of_mem _ (ih h)

theorem assocSet_of_not_mem : ∀ {st : Cache} {k : Str} {v : List Offer × ℕ},
    k ∉ st.map Prod.fst → assocSet st k v = st ++ [(k, v)] := by
  intro st
  induction st with
  | nil => intro k v _; rfl
  | cons x r ih =>
    intro k v hk
    unfold assocSet
    rw [List.map_cons] at hk
    split
    · next heq => exact absurd (heq ▸ List.mem_cons_self _ _) hk
    · rw [ih (fun hm => hk (List.mem_cons_of_mem _ hm)), List.cons_append]

theorem minTsAux_eq_of_le : ∀ (st : Cache) (m : ℕ),
    (∀ e ∈ st, m ≤ e.2.2) → minTsAux m st = m := by
  intro st
  induction st with
  | nil => intro m _; rfl
  | cons x r ih =>
    intro m h
    unfold minTsAux
    rw [min_eq_left (h x (List.mem_cons_self _ _))]
    exact ih m (fun e he => h e (List.mem_cons_of_mem _ he))

theorem lookupCache_append_right : ∀ {st : Cache} {k : Str} {v : List Offer × ℕ},
    k ∉ st.map Prod.fst → lookupCache (st ++ [(k, v)]) k = some v := by
  intro st
  induction st with
  | nil => intro k v _; simp [lookupCache]
  | cons x r ih =>
    intro k v hk
    rw [List.map_cons] at hk
    rw [List.cons_append]
    unfold lookupCache
    split
    · next heq => exact absurd (heq ▸ List.mem_cons_self _ _) hk
    · exact ih (fun hm => hk (List.mem_cons_of_mem _ hm))

/-! ### The response invariant -/

/-- The invariant of every offer list the system emits: between one and six
records, no blacklisted store, every numeric price inside [0.01, 50000],
and ascending price order. -/
def goodOffers (l : List Offer) : Prop :=
  (1 ≤ l.length ∧ l.length ≤ 6) ∧
  (∀ o ∈ l, is_blacklisted_store o.source = false) ∧
  (∀ o ∈ l, 0.01 ≤ o.price_numeric ∧ o.price_numeric ≤ 50000) ∧
  List.Pairwise priceLE l

/-- Every cached offer list satisfies the response invariant. -/
def cacheWF (st : Cache) : Prop := ∀ e ∈ st, goodOffers e.2.1

theorem get_examples_good (q : Str) : goodOffers (get_examples q) := by
  refine ⟨⟨by simp [get_examples], by simp [get_examples]⟩, ?_, ?_, ?_⟩
  · intro o ho
    simp only [get_examples, List.mem_cons, List.not_mem_nil, or_false] at ho
    rcases ho with rfl | rfl | rfl
    · show is_blacklisted_store (exampleStore 0) = false
      decide
    · show is_blacklisted_store (exampleStore 1) = false
      decide
    · show is_blacklisted_store (exampleStore 2) = false
      decide
  · intro o ho
    simp only [get_examples, List.mem_cons, List.not_mem_nil, or_false] at ho
    rcases ho with rfl | rfl | rfl
    · exact generate_realistic_price_range q (by norm_num)
    · exact generate_realistic_price_range q (by norm_num)
    · exact generate_realistic_price_range q (by norm_num)
  · refine List.pairwise_cons.mpr ⟨?_, List.pairwise_cons.mpr ⟨?_, ?_⟩⟩
    · intro b hb
      simp only [List.mem_cons, List.not_mem_nil, or_false] at hb
      rcases hb with rfl | rfl
      · exact generate_realistic_price_mono q (by norm_num)
      · exact generate_realistic_price_mono q (by norm_num)
    · intro b hb
      simp only [List.mem_cons, List.not_mem_nil, or_false] at hb
      rcases hb with rfl
      exact generate_realistic_price_mono q (by norm_num)
    · exact List.pairwise_singleton _ _

theorem rank_stamp_good {l : List Offer} (src query : Str)
    (hne : l ≠ []) (hlen : l.length ≤ 6)
    (hsrc : ∀ o ∈ l, is_blacklisted_store o.source = false)
    (hpr : ∀ o ∈ l, 0.01 ≤ o.price_numeric ∧ o.price_numeric ≤ 50000) :
    goodOffers (((sortOffers l).take 6).map (stampOffer src query)) := by
  have hlpos : 1 ≤ l.length := List.length_pos.mpr hne
  refine ⟨⟨?_, ?_⟩, ?_, ?_, ?_⟩
  · rw [List.length_map, List.length_take, sortOffers_length]
    omega
  · rw [List.length_map, List.length_take, sortOffers_length]
    omega
  · intro o ho
    rw [List.mem_map] at ho
    obtain ⟨o', ho', rfl⟩ := ho
    exact hsrc o' (mem_sortOffers.mp (List.mem_of_mem_take ho'))
  · intro o ho
    rw [List.mem_map] at ho
    obtain ⟨o', ho', rfl⟩ := ho
    exact hpr o' (mem_sortOffers.mp (List.mem_of_mem_take ho'))
  · rw [List.pairwise_map]
    have h2 : List.Pairwise priceLE ((sortOffers l).take 6) :=
      (sortOffers_pairwise l).sublist (List.take_sublist 6 _)
    exact h2.imp (fun h => h)

theorem live_fetch_good (env : Env) (fq src query : Str) (st : Cache)
    (hwf : cacheWF st) :
    goodOffers (live_fetch env fq src query st).1 ∧
      cacheWF (live_fetch env fq src query st).2 := by
  have hall : (if process_results env.api_response = [] then get_examples fq
        else process_results env.api_response) ≠ [] ∧
      (if process_results env.api_response = [] then get_examples fq
        else process_results env.api_response).length ≤ 6 ∧
      (∀ o ∈ (if process_results env.api_response = [] then get_examples fq
        else process_results env.api_response),
          is_blacklisted_store o.source = false) ∧
      (∀ o ∈ (if process_results env.api_response = [] then get_examples fq
        else process_results env.api_response),
          0.01 ≤ o.price_numeric ∧ o.price_numeric ≤ 50000) := by
    split
    · obtain ⟨⟨h1, h2⟩, h3, h4, -⟩ := get_examples_good fq
      refine ⟨?_, by omega, h3, h4⟩
      intro hq
      rw [hq] at h1
      simp at h1
    · next hne =>
      refine ⟨hne, le_trans (process_results_le3 _) (by norm_num), ?_, ?_⟩
      · exact process_results_forall
          (fun it idx hok hidx => mkOffer_source_ok hok idx) _
      · exact process_results_forall
          (fun it idx hok hidx => mkOffer_price_range it hidx) _
  have hgood : goodOffers (live_fetch env fq src query st).1 :=
    rank_stamp_good src query hall.1 hall.2.1 hall.2.2.1 hall.2.2.2
  refine ⟨hgood, ?_⟩
  intro e he
  rcases mem_cachePut e he with h | h
  · exact hwf e h
  · rw [h]
    exact hgood

theorem search_products_good (env : Env) (query : Str) (img : Bool) (st : Cache)
    (hwf : cacheWF st) :
    goodOffers (search_products env query img st).1 ∧
      cacheWF (search_products env query img st).2 := by
  unfold search_products
  dsimp only
  split
  · exact ⟨get_examples_good _, hwf⟩
  · split
    · exact ⟨get_examples_good _, hwf⟩
    · split
      · next cd heq =>
        split
        · exact ⟨hwf _ (lookupCache_mem heq), hwf⟩
        · exact live_fetch_good env _ _ query st hwf
      · exact live_fetch_good env _ _ query st hwf

/-! ### Further path lemmas -/

theorem sortOffers_of_pairwise : ∀ {l : List Offer},
    List.Pairwise priceLE l → sortOffers l = l
  | [], _ => rfl
  | x :: r, h => by
    unfold sortOffers
    rw [sortOffers_of_pairwise (List.pairwise_cons.mp h).2]
    rcases r with - | ⟨y, r'⟩
    · rfl
    · unfold insertOffer
      have hle : x.price_numeric ≤ y.price_numeric :=
        (List.pairwise_cons.mp h).1 y (List.mem_cons_self _ _)
      rw [if_pos hle]

theorem live_fetch_stamped (env : Env) (fq src query : Str) (st : Cache) :
    ∀ o ∈ (live_fetch env fq src query st).1,
      o.search_source = some src ∧
      o.original_query = some (if query ≠ [] then query else "imagen".toList) := by
  intro o ho
  have ho' : o ∈ ((sortOffers (if process_results env.api_response = []
      then get_examples fq else process_results env.api_response)).take 6).map
      (stampOffer src query) := ho
  rw [List.mem_map] at ho'
  obtain ⟨o', -, rfl⟩ := ho'
  exact ⟨rfl, rfl⟩

theorem compose_query_invalid (env : Env) (q : Str) (hq : q ≠ [])
    (hval : env.valid_image = false) :
    compose_query env q true = compose_query env q false := by
  unfold compose_query
  rw [hval]
  simp [hq]

theorem cachePut_eviction (st : Cache) (k : Str) (v : List Offer) (now : ℕ)
    (hlen : st.length = 10) (hk : k ∉ st.map Prod.fst)
    (hchain : st.Chain' (fun a b => a.2.2 < b.2.2))
    (hnow : ∀ e ∈ st, e.2.2 < now) :
    cachePut st k v now = st.tail ++ [(k, (v, now))] := by
  unfold cachePut
  dsimp only
  rw [assocSet_of_not_mem hk]
  rw [if_pos (by rw [List.length_append, hlen]; norm_num)]
  rcases st with - | ⟨e, rest⟩
  · simp at hlen
  · haveI : IsTrans (Str × (List Offer × ℕ)) (fun a b => a.2.2 < b.2.2) :=
      ⟨fun _ _ _ hab hbc => lt_trans hab hbc⟩
    have hpair : List.Pairwise (fun a b : Str × (List Offer × ℕ) => a.2.2 < b.2.2)
        (e :: rest) :=
      List.chain'_iff_pairwise.mp hchain
    have hmin : ∀ x ∈ rest ++ [(k, (v, now))], e.2.2 ≤ x.2.2 := by
      intro x hx
      rcases List.mem_append.mp hx with hx | hx
      · exact le_of_lt ((List.pairwise_cons.mp hpair).1 x hx)
      · rw [List.mem_singleton] at hx
        subst hx
        exact le_of_lt (hnow e (List.mem_cons_self _ _))
    have hm : minTs ((e :: rest) ++ [(k, (v, now))]) = e.2.2 := by
      rw [List.cons_append]
      exact minTsAux_eq_of_le _ _ hmin
    rw [hm, List.cons_append]
    unfold delFirstWithTs
    rw [if_pos rfl]
    rfl

/-! ### Matcher lemmas for the price regex -/

theorem isDigitChar_ne_comma {c : Char} (h : isDigitChar c = true) : c ≠ ',' :=
  fun hc => absurd (hc ▸ h) (by decide)

theorem isDigitChar_ne_dot {c : Char} (h : isDigitChar c = true) : c ≠ '.' :=
  fun hc => absurd (hc ▸ h) (by decide)

theorem isDigitChar_not_space {c : Char} (h : isDigitChar c = true) :
    isSpaceChar c = false := by
  unfold isDigitChar at h
  unfold isSpaceChar
  simp only [Bool.and_eq_true, decide_eq_true_eq] at h
  simp only [Bool.or_eq_false_iff, decide_eq_false_iff_not]
  omega

theorem isDigitChar_toNat_le {c : Char} (h : isDigitChar c = true) :
    c.toNat - 48 ≤ 9 := by
  unfold isDigitChar at h
  simp only [Bool.and_eq_true, decide_eq_true_eq] at h
  omega

theorem matchCommaGroups_ne_comma : ∀ {s : Str}, s.head? ≠ some ',' →
    matchCommaGroups s = ([], s) := by
  intro s h
  rw [matchCommaGroups.eq_def]
  split
  · simp_all
  · rfl

theorem matchFraction_ne_dot : ∀ {s : Str}, s.head? ≠ some '.' →
    matchFraction s = ([], s) := by
  intro s h
  rw [matchFraction.eq_def]
  split
  · simp_all
  · rfl

theorem matchDigits14_five {a b c d e : Char} {tl : Str}
    (ha : isDigitChar a = true) (hb : isDigitChar b = true)
    (hc : isDigitChar c = true) (hd : isDigitChar d = true)
    (he : isDigitChar e = true) :
    matchDigits14 (a :: b :: c :: d :: e :: tl) = some ([a, b, c, d], e :: tl) := by
  unfold matchDigits14
  dsimp only
  rw [List.takeWhile_cons_of_pos ha, List.takeWhile_cons_of_pos hb,
    List.takeWhile_cons_of_pos hc, List.takeWhile_cons_of_pos hd,
    List.takeWhile_cons_of_pos he]
  rw [show ∀ X : Str, List.take 4 (a :: b :: c :: d :: X) = [a, b, c, d]
    from fun X => rfl]
  rw [if_neg (by simp)]
  rw [show ([a, b, c, d] : Str).length = 4 from rfl]
  rw [show ∀ X : Str, List.drop 4 (a :: b :: c :: d :: X) = X from fun X => rfl]

theorem matchPriceAt_five {a b c d e : Char} {tl : Str}
    (ha : isDigitChar a = true) (hb : isDigitChar b = true)
    (hc : isDigitChar c = true) (hd : isDigitChar d = true)
    (he : isDigitChar e = true) :
    matchPriceAt ('$' :: a :: b :: c :: d :: e :: tl) = some [a, b, c, d] := by
  unfold matchPriceAt
  dsimp only
  rw [if_pos rfl]
  rw [List.dropWhile_cons_of_neg (by rw [isDigitChar_not_space ha]; simp)]
  rw [matchDigits14_five ha hb hc hd he]
  dsimp only
  rw [matchCommaGroups_ne_comma (by simp [isDigitChar_ne_comma he])]
  rw [matchFraction_ne_dot (by simp [isDigitChar_ne_dot he])]
  simp

theorem searchPrice_head {X : Str} {c : Char} {g : Str}
    (h : matchPriceAt (c :: X) = some g) :
    searchPrice (c :: X) = some g := by
  unfold searchPrice
  rw [h]

theorem parsePriceGroup_digits4 {a b c d : Char}
    (ha : isDigitChar a = true) (hb : isDigitChar b = true)
    (hc : isDigitChar c = true) (hd : isDigitChar d = true) :
    parsePriceGroup [a, b, c, d] = (digitsToNat [a, b, c, d] : ℚ) := by
  unfold parsePriceGroup
  dsimp only
  rw [List.filter_cons_of_pos (by simp [isDigitChar_ne_comma ha]),
    List.filter_cons_of_pos (by simp [isDigitChar_ne_comma hb]),
    List.filter_cons_of_pos (by simp [isDigitChar_ne_comma hc]),
    List.filter_cons_of_pos (by simp [isDigitChar_ne_comma hd]),
    List.filter_nil]
  rw [List.takeWhile_cons_of_pos (by simp [isDigitChar_ne_dot ha]),
    List.takeWhile_cons_of_pos (by simp [isDigitChar_ne_dot hb]),
    List.takeWhile_cons_of_pos (by simp [isDigitChar_ne_dot hc]),
    List.takeWhile_cons_of_pos (by simp [isDigitChar_ne_dot hd]),
    List.takeWhile_nil]
  rw [List.dropWhile_cons_of_pos (by simp [isDigitChar_ne_dot ha]),
    List.dropWhile_cons_of_pos (by simp [isDigitChar_ne_dot hb]),
    List.dropWhile_cons_of_pos (by simp [isDigitChar_ne_dot hc]),
    List.dropWhile_cons_of_pos (by simp [isDigitChar_ne_dot hd]),
    List.dropWhile_nil]
  simp [digitsToNat]

theorem digitsToNat_four_le {a b c d : Char}
    (ha : isDigitChar a = true) (hb : isDigitChar b = true)
    (hc : isDigitChar c = true) (hd : isDigitChar d = true) :
    digitsToNat [a, b, c, d] ≤ 9999 := by
  have h1 := isDigitChar_toNat_le ha
  have h2 := isDigitChar_toNat_le hb
  have h3 := isDigitChar_toNat_le hc
  have h4 := isDigitChar_toNat_le hd
  unfold digitsToNat
  simp only [List.foldl_cons, List.foldl_nil]
  omega

theorem extract_price_five {a b c d e : Char} {tl : Str}
    (ha : isDigitChar a = true) (hb : isDigitChar b = true)
    (hc : isDigitChar c = true) (hd : isDigitChar d = true)
    (he : isDigitChar e = true) (hpos : 1 ≤ digitsToNat [a, b, c, d]) :
    extract_price ('$' :: a :: b :: c :: d :: e :: tl) =
      (digitsToNat [a, b, c, d] : ℚ) := by
  unfold extract_price
  rw [searchPrice_head (matchPriceAt_five ha hb hc hd he)]
  dsimp only
  rw [parsePriceGroup_digits4 ha hb hc hd]
  rw [if_pos ?side]
  case side =>
    constructor
    · have : (1 : ℚ) ≤ (digitsToNat [a, b, c, d] : ℚ) := by exact_mod_cast hpos
      linarith
    · have : (digitsToNat [a, b, c, d] : ℚ) ≤ 9999 := by
        exact_mod_cast digitsToNat_four_le ha hb hc hd
      linarith

/-! ### Path equations for `search_products` -/

theorem search_products_live_empty (env : Env) (query : Str) (img : Bool)
    (st : Cache)
    (hq : (compose_query env query img).1 ≠ [])
    (hlen2 : ¬ (pyStrip (compose_query env query img).1).length < 2)
    (hkey : env.api_key = true)
    (hmiss : lookupCache st
      (cacheKey (pyStrip (compose_query env query img).1)) = none)
    (hemp : process_results env.api_response = []) :
    search_products env query img st =
      ((get_examples (pyStrip (compose_query env query img).1)).map
          (stampOffer (compose_query env query img).2 query),
       cachePut st (cacheKey (pyStrip (compose_query env query img).1))
         ((get_examples (pyStrip (compose_query env query img).1)).map
            (stampOffer (compose_query env query img).2 query)) env.now) := by
  unfold search_products
  dsimp only
  rw [if_neg (by
    simp only [Bool.or_eq_true, decide_eq_true_eq]
    push_neg
    exact ⟨hq, Nat.le_of_not_lt hlen2⟩)]
  rw [if_neg (by rw [hkey]; simp)]
  rw [hmiss]
  unfold live_fetch
  dsimp only
  rw [hemp, if_pos rfl]
  rw [sortOffers_of_pairwise (get_examples_good _).2.2.2]
  rw [List.take_of_length_le (by simp [get_examples])]

theorem search_products_image_no_query (env : Env) (st : Cache)
    (hg : env.gemini_ready = true) (hp : env.pil_available = true)
    (hv : env.valid_image = true) (hr : env.gemini_result = none) :
    search_products env [] true st = (get_examples "producto".toList, st) := by
  have hcomp : compose_query env [] true = ([], "image".toList) := by
    unfold compose_query
    rw [hg, hp, hv, hr]
    simp
  unfold search_products
  rw [hcomp]
  simp

theorem search_products_img_irrel (env : Env) (q : Str) (st : Cache)
    (hq : q ≠ []) (hval : env.valid_image = false) :
    search_products env q true st = search_products env q false st := by
  unfold search_products
  rw [compose_query_invalid env q hq hval]

/-! ### Concrete price-extraction evaluations -/

theorem extract_price_1299 : extract_price "$1,299.00".toList = 1299 := by
  have hsp : searchPrice "$1,299.00".toList = some "1,299.00".toList := by decide
  unfold extract_price
  rw [hsp]
  have hint : (("1,299.00".toList.filter (fun c => c ≠ ',')).takeWhile
      (fun c => c ≠ '.')) = "1299".toList := by decide
  have hfrac : ((("1,299.00".toList.filter (fun c => c ≠ ',')).dropWhile
      (fun c => c ≠ '.')).drop 1) = "00".toList := by decide
  have hv : parsePriceGroup "1,299.00".toList = 1299 := by
    unfold parsePriceGroup
    dsimp only
    rw [hint, hfrac]
    rw [show digitsToNat "1299".toList = 1299 from by decide]
    rw [show digitsToNat "00".toList = 0 from by decide]
    norm_num
  dsimp only
  rw [hv]
  rw [if_pos (by norm_num)]

theorem extract_price_000 : extract_price "$0.00".toList = 0 := by
  have hsp : searchPrice "$0.00".toList = some "0.00".toList := by decide
  unfold extract_price
  rw [hsp]
  have hint : (("0.00".toList.filter (fun c => c ≠ ',')).takeWhile
      (fun c => c ≠ '.')) = "0".toList := by decide
  have hfrac : ((("0.00".toList.filter (fun c => c ≠ ',')).dropWhile
      (fun c => c ≠ '.')).drop 1) = "00".toList := by decide
  have hv : parsePriceGroup "0.00".toList = 0 := by
    unfold parsePriceGroup
    dsimp only
    rw [hint, hfrac]
    rw [show digitsToNat "0".toList = 0 from by decide]
    rw [show digitsToNat "00".toList = 0 from by decide]
    norm_num
  dsimp only
  rw [hv]
  rw [if_neg (by norm_num)]

theorem extract_price_50001 : extract_price "$50,001.00".toList = 0 := by
  have hsp : searchPrice "$50,001.00".toList = some "50,001.00".toList := by decide
  unfold extract_price
  rw [hsp]
  have hint : (("50,001.00".toList.filter (fun c => c ≠ ',')).takeWhile
      (fun c => c ≠ '.')) = "50001".toList := by decide
  have hfrac : ((("50,001.00".toList.filter (fun c => c ≠ ',')).dropWhile
      (fun c => c ≠ '.')).drop 1) = "00".toList := by decide
  have hv : parsePriceGroup "50,001.00".toList = 50001 := by
    unfold parsePriceGroup
    dsimp only
    rw [hint, hfrac]
    rw [show digitsToNat "50001".toList = 50001 from by decide]
    rw [show digitsToNat "00".toList = 0 from by decide]
    norm_num
  dsimp only
  rw [hv]
  rw [if_neg (by norm_num)]

/-! ### `/api/search` failure characterization -/

theorem api_search_fail_iff (rawQuery : Str) (img : Option ImageUpload)
    (env : Env) (st : Cache) :
    isFailResult (api_search rawQuery img env st) = true ↔
      (∃ f, img = some f ∧ (f.read_ok = false ∨ MAX_IMAGE_BYTES < f.size)) ∨
      (pyStrip rawQuery = [] ∧
        (img = none ∨ ∃ f, img = some f ∧ f.size = 0)) := by
  rcases img with - | f
  · by_cases hqe : pyStrip rawQuery = [] <;>
      simp [api_search, api_search_cont, isFailResult, hqe]
  · by_cases hro : f.read_ok = true
    · by_cases hsz : MAX_IMAGE_BYTES < f.size
      · simp [api_search, hro, hsz, isFailResult]
      · by_cases hs0 : f.size = 0
        · by_cases hqe : pyStrip rawQuery = [] <;>
            simp [api_search, api_search_cont, isFailResult, hro, hsz, hs0, hqe]
        · by_cases hqe : pyStrip rawQuery = [] <;>
            simp [api_search, api_search_cont, isFailResult, hro, hsz, hs0, hqe]
    · have hro' : f.read_ok = false := Bool.not_eq_true _ ▸ hro
      simp [api_search, isFailResult, hro']

theorem api_search_invalid_image_eq (rawQuery : Str) (f : ImageUpload)
    (env : Env) (st : Cache) (hro : f.read_ok = true)
    (hsz : f.size ≤ MAX_IMAGE_BYTES) (hq : pyStrip rawQuery ≠ [])
    (hval : env.valid_image = false) :
    api_search rawQuery (some f) env st = api_search rawQuery none env st := by
  unfold api_search
  dsimp only
  rw [if_neg (by rw [hro]; simp), if_neg (Nat.not_lt.mpr hsz)]
  by_cases hs0 : f.size = 0
  · rw [hs0]
    norm_num
  · rw [show decide (f.size ≠ 0) = true from by simp [hs0]]
    unfold api_search_cont
    dsimp only
    rw [if_neg (show ¬ ((decide (pyStrip rawQuery = []) && !true) = true)
      from by simp)]
    rw [if_neg (show ¬ ((decide (pyStrip rawQuery = []) && !false) = true)
      from by simp [hq])]
    have hq80 : (if 80 < (pyStrip rawQuery).length then (pyStrip rawQuery).take 80
        else pyStrip rawQuery) ≠ [] := by
      split
      · next hgt =>
        intro hcontr
        have hlen := congrArg List.length hcontr
        rw [List.length_take, List.length_nil] at hlen
        omega
      · exact hq
    rw [search_products_img_irrel env _ st hq80 hval]

/-! ### Concrete environments for witnesses and counterexamples -/

/-- Text-only environment with a configured API key and an aggregator
response whose result array is empty. -/
def envC2 : Env :=
  { gemini_ready := false, pil_available := true, valid_image := false,
    gemini_result := none, api_key := true, api_response := some [], now := 5 }

/-- Image environment: Gemini configured, valid image, Vision call fails. -/
def envC9 : Env :=
  { gemini_ready := true, pil_available := true, valid_image := true,
    gemini_result := none, api_key := true, api_response := some [], now := 0 }

/-- Minimal unconfigured environment. -/
def envPlain : Env :=
  { gemini_ready := false, pil_available := true, valid_image := false,
    gemini_result := none, api_key := false, api_response := none, now := 0 }

/-- A ten-entry cache with strictly increasing timestamps. -/
def cacheW : Cache :=
  [("a0".toList, ([], 0)), ("a1".toList, ([], 1)), ("a2".toList, ([], 2)),
   ("a3".toList, ([], 3)), ("a4".toList, ([], 4)), ("a5".toList, ([], 5)),
   ("a6".toList, ([], 6)), ("a7".toList, ([], 7)), ("a8".toList, ([], 8)),
   ("a9".toList, ([], 9))]

/-! ### Claim theorems -/

/-- Claim C1: for every valid input (a non-empty text query and/or an
image) and a well-formed cache, `search_products` returns between 1 and 6
offers — never an empty list and never an error — regardless of API-key
configuration, aggregator failure, or an empty aggregator result (all of
which range freely over `env`); the cache invariant is preserved. -/
theorem C1_bounded_offer_count (env : Env) (query : Str) (img : Bool)
    (st : Cache) (hvalid : query ≠ [] ∨ img = true) (hwf : cacheWF st) :
    1 ≤ (search_products env query img st).1.length ∧
      (search_products env query img st).1.length ≤ 6 ∧
      cacheWF (search_products env query img st).2 := by
  obtain ⟨⟨h1, h2⟩, -, -, -⟩ := (search_products_good env query img st hwf).1
  exact ⟨h1, h2, (search_products_good env query img st hwf).2⟩

theorem C1_bounded_offer_count_witness :
    ("mouse".toList ≠ ([] : Str) ∨ false = true) ∧ cacheWF [] ∧
      1 ≤ (search_products envC2 "mouse".toList false []).1.length :=
  ⟨Or.inl (by decide), by simp [cacheWF],
   (C1_bounded_offer_count envC2 "mouse".toList false []
     (Or.inl (by decide)) (by simp [cacheWF])).1⟩

/-- Claim C2 counterexample: with an API key configured, a cache miss and
an empty aggregator result, the fallback offers are stored in the cache
(the cache is not left unchanged), and the returned list is not the raw
`FallbackGenerator` output — every record has been stamped with the request
provenance `text` instead of `example`. -/
theorem C2_fallback_not_cached_counterexample :
    (search_products envC2 "zz".toList false []).2 ≠ [] ∧
    (search_products envC2 "zz".toList false []).1.map
        (fun o => o.search_source) =
      [some "text".toList, some "text".toList, some "text".toList] ∧
    (get_examples (pyStrip "zz".toList)).map (fun o => o.search_source) =
      [some "example".toList, some "example".toList, some "example".toList] := by
  have h := search_products_live_empty envC2 "zz".toList false []
    (by decide) (by decide) rfl rfl rfl
  refine ⟨?_, ?_, by decide⟩
  · rw [h]
    simp [cachePut, assocSet, delFirstWithTs]
  · rw [h]
    decide

/-- Claim C2 (amended): when the live-fetch path runs (API key configured,
cache miss) and the normalized, ranked result is empty, `search_products`
returns the `FallbackGenerator` offers for the final query stamped with the
request provenance and original query, and it does store that stamped list
in the cache under the final query's key with the current timestamp
(applying the capacity-eviction step). -/
theorem C2_fallback_cached_amended (env : Env) (query : Str) (img : Bool)
    (st : Cache)
    (hq : (compose_query env query img).1 ≠ [])
    (hlen2 : ¬ (pyStrip (compose_query env query img).1).length < 2)
    (hkey : env.api_key = true)
    (hmiss : lookupCache st
      (cacheKey (pyStrip (compose_query env query img).1)) = none)
    (hemp : process_results env.api_response = []) :
    search_products env query img st =
      ((get_examples (pyStrip (compose_query env query img).1)).map
          (stampOffer (compose_query env query img).2 query),
       cachePut st (cacheKey (pyStrip (compose_query env query img).1))
         ((get_examples (pyStrip (compose_query env query img).1)).map
            (stampOffer (compose_query env query img).2 query)) env.now) :=
  search_products_live_empty env query img st hq hlen2 hkey hmiss hemp

theorem C2_fallback_cached_amended_witness :
    envC2.api_key = true ∧
    search_products envC2 "zz".toList false [] =
      ((get_examples (pyStrip (compose_query envC2 "zz".toList false).1)).map
          (stampOffer (compose_query envC2 "zz".toList false).2 "zz".toList),
       cachePut [] (cacheKey (pyStrip (compose_query envC2 "zz".toList false).1))
         ((get_examples (pyStrip (compose_query envC2 "zz".toList false).1)).map
            (stampOffer (compose_query envC2 "zz".toList false).2 "zz".toList))
         envC2.now) :=
  ⟨rfl, C2_fallback_cached_amended envC2 "zz".toList false []
    (by decide) (by decide) rfl rfl rfl⟩

/-- Claim C3 counterexample: a request with the non-empty text query
"shoes" and an over-size-limit image (10 MB + 1 byte) is rejected with a
caller-visible 400 error, so an error can be returned even when a
non-empty text query is present. -/
theorem C3_oversize_rejected_counterexample :
    isFailResult (api_search "shoes".toList
      (some { read_ok := true, size := 10485761 }) envPlain []) = true ∧
    pyStrip "shoes".toList ≠ [] := by
  constructor <;> decide

/-- Claim C3 (amended): the search endpoint rejects with a caller-visible
error exactly when the image file fails to read or exceeds the 10 MB limit
(even when valid text accompanies it), or when both the text query and the
image content are absent; a malformed or undersized image (one that fails
validation) accompanying a non-empty text query is dropped and the request
proceeds exactly as a text-only request. -/
theorem C3_rejection_characterization (rawQuery : Str)
    (img : Option ImageUpload) (env : Env) (st : Cache) :
    (isFailResult (api_search rawQuery img env st) = true ↔
      (∃ f, img = some f ∧ (f.read_ok = false ∨ MAX_IMAGE_BYTES < f.size)) ∨
      (pyStrip rawQuery = [] ∧
        (img = none ∨ ∃ f, img = some f ∧ f.size = 0))) ∧
    (∀ f : ImageUpload, img = some f → f.read_ok = true →
      f.size ≤ MAX_IMAGE_BYTES → pyStrip rawQuery ≠ [] →
      env.valid_image = false →
      api_search rawQuery img env st = api_search rawQuery none env st) := by
  refine ⟨api_search_fail_iff rawQuery img env st, ?_⟩
  intro f hf hro hsz hq hval
  subst hf
  exact api_search_invalid_image_eq rawQuery f env st hro hsz hq hval

theorem C3_rejection_characterization_witness :
    pyStrip "shoes".toList ≠ [] ∧ envPlain.valid_image = false ∧
    api_search "shoes".toList (some { read_ok := true, size := 5 }) envPlain []
      = api_search "shoes".toList none envPlain [] :=
  ⟨by decide, rfl,
   (C3_rejection_characterization "shoes".toList
      (some { read_ok := true, size := 5 }) envPlain []).2
     { read_ok := true, size := 5 } rfl rfl (by norm_num [MAX_IMAGE_BYTES])
     (by decide) rfl⟩

/-- Claim C4: no offer in any list returned by `search_products` has a
source field containing (case-insensitively) a blacklisted substring, given
the cache invariant; and a blacklisted (or short-titled) aggregator entry
is skipped without being appended, so the number of offers produced equals
the number of acceptable entries among the first three — skipped entries do
not count toward the 3-accepted-offers-per-call cap. -/
theorem C4_no_blacklisted_sources (env : Env) (query : Str) (img : Bool)
    (st : Cache) (hwf : cacheWF st) :
    (∀ o ∈ (search_products env query img st).1,
      is_blacklisted_store o.source = false) ∧
    ∀ entries : List Item, (process_results (some entries)).length =
      ((entries.take 3).filter acceptableItem).length :=
  ⟨(search_products_good env query img st hwf).1.2.1,
   fun entries => process_results_length entries⟩

theorem C4_no_blacklisted_sources_witness :
    cacheWF [] ∧
    (process_results (some [])).length =
      ((([] : List Item).take 3).filter acceptableItem).length :=
  ⟨by simp [cacheWF],
   (C4_no_blacklisted_sources envC2 "q".toList false [] (by simp [cacheWF])).2 []⟩

/-- Claim C5: every offer in any list returned by `search_products` has
`price_numeric` in [0.01, 50000] (given the cache invariant); in
particular the 0 sentinel for an unparseable price never appears in an
offer that leaves the system. -/
theorem C5_price_bounds (env : Env) (query : Str) (img : Bool) (st : Cache)
    (hwf : cacheWF st) :
    ∀ o ∈ (search_products env query img st).1,
      0.01 ≤ o.price_numeric ∧ o.price_numeric ≤ 50000 :=
  (search_products_good env query img st hwf).1.2.2.1

theorem C5_price_bounds_witness :
    cacheWF [] ∧
    ∀ o ∈ (search_products envC2 "q".toList false []).1,
      0.01 ≤ o.price_numeric ∧ o.price_numeric ≤ 50000 :=
  ⟨by simp [cacheWF], C5_price_bounds envC2 "q".toList false [] (by simp [cacheWF])⟩

/-- Claim C6: price extraction parses "$1,299.00" to exactly 1299; a value
below 0.01 (such as "$0.00") or above 50000 (such as "$50,001.00") is
treated as unparsed (0 sentinel); and every extraction result is either the
0 sentinel or a value in [0.01, 50000]. -/
theorem C6_price_extraction :
    extract_price "$1,299.00".toList = 1299 ∧
    extract_price "$0.00".toList = 0 ∧
    extract_price "$50,001.00".toList = 0 ∧
    ∀ s : Str, extract_price s = 0 ∨
      (0.01 ≤ extract_price s ∧ extract_price s ≤ 50000) :=
  ⟨extract_price_1299, extract_price_000, extract_price_50001,
   fun s => extract_price_range s⟩

/-- Claim C7: a cache insertion stores the offer list under the key with
the current timestamp; when the cache held ten distinct keys with strictly
increasing timestamps all older than the new one, inserting an eleventh
distinct key evicts exactly the single entry with the smallest stored
timestamp (the oldest-by-insertion entry) and no other. -/
theorem C7_cache_eviction_exact (st : Cache) (k : Str) (v : List Offer)
    (now : ℕ) (hlen : st.length = 10) (hk : k ∉ st.map Prod.fst)
    (hchain : st.Chain' (fun a b => a.2.2 < b.2.2))
    (hnow : ∀ e ∈ st, e.2.2 < now) :
    cachePut st k v now = st.tail ++ [(k, (v, now))] ∧
    lookupCache (cachePut st k v now) k = some (v, now) := by
  have h := cachePut_eviction st k v now hlen hk hchain hnow
  refine ⟨h, ?_⟩
  rw [h]
  apply lookupCache_append_right
  intro hm
  rw [List.mem_map] at hm
  obtain ⟨e, he, rfl⟩ := hm
  exact hk (List.mem_map.mpr ⟨e, List.mem_of_mem_tail he, rfl⟩)

theorem C7_cache_eviction_exact_witness :
    cacheW.length = 10 ∧ ("zz".toList ∉ cacheW.map Prod.fst) ∧
    cachePut cacheW "zz".toList [] 100 =
      cacheW.tail ++ [("zz".toList, ([], 100))] :=
  ⟨by decide, by decide,
   (C7_cache_eviction_exact cacheW "zz".toList [] 100 (by decide) (by decide)
     (by simp [cacheW, List.chain'_cons, List.chain'_singleton]) (by decide)).1⟩

/-- Claim C8: every list returned by `search_products` is sorted
non-decreasing by `price_numeric` and truncated to at most six records
(given the cache invariant); the sort used is stable — offers with equal
prices keep arrival order, expressed by filter-invariance of `sortOffers` —
and on the live-fetch path every surviving record is stamped with the
request provenance and original query. -/
theorem C8_sorted_capped_stamped (env : Env) (query : Str) (img : Bool)
    (st : Cache) (hwf : cacheWF st) :
    List.Pairwise priceLE (search_products env query img st).1 ∧
    (search_products env query img st).1.length ≤ 6 ∧
    (∀ (l : List Offer) (q' : ℚ),
      (sortOffers l).filter (fun x => decide (x.price_numeric = q')) =
        l.filter (fun x => decide (x.price_numeric = q'))) ∧
    (∀ fq src : Str, ∀ o ∈ (live_fetch env fq src query st).1,
      o.search_source = some src ∧
      o.original_query = some (if query ≠ [] then query else "imagen".toList)) := by
  obtain ⟨⟨-, h2⟩, -, -, h4⟩ := (search_products_good env query img st hwf).1
  exact ⟨h4, h2, fun l q' => sortOffers_stable l q',
    fun fq src => live_fetch_stamped env fq src query st⟩

theorem C8_sorted_capped_stamped_witness :
    cacheWF [] ∧
    List.Pairwise priceLE (search_products envC2 "q".toList false []).1 :=
  ⟨by simp [cacheWF],
   (C8_sorted_capped_stamped envC2 "q".toList false [] (by simp [cacheWF])).1⟩

/-- Claim C9 counterexample: with a valid image, no text, and a failed
Vision call, the offers returned by `search_products` all carry provenance
`example`, not `text`. -/
theorem C9_provenance_counterexample :
    (search_products envC9 [] true []).1.map (fun o => o.search_source) =
      [some "example".toList, some "example".toList, some "example".toList] ∧
    ("example".toList : Str) ≠ "text".toList := by
  constructor <;> decide

/-- Claim C9 (amended): when a valid image is supplied with no text and
the Vision call fails (returns no phrase), `search_products` returns the
`FallbackGenerator` offers for the generic literal "producto", leaving the
cache unchanged, and those offers carry provenance `example` (the metadata
stamp of the live path is never applied on this early-return path). -/
theorem C9_vision_failure_amended (env : Env) (st : Cache)
    (hg : env.gemini_ready = true) (hp : env.pil_available = true)
    (hv : env.valid_image = true) (hr : env.gemini_result = none) :
    search_products env [] true st = (get_examples "producto".toList, st) ∧
    ∀ o ∈ (search_products env [] true st).1,
      o.search_source = some "example".toList := by
  have h := search_products_image_no_query env st hg hp hv hr
  refine ⟨h, ?_⟩
  rw [h]
  intro o ho
  simp only [get_examples, List.mem_cons, List.not_mem_nil, or_false] at ho
  rcases ho with rfl | rfl | rfl <;> rfl

theorem C9_vision_failure_amended_witness :
    envC9.gemini_ready = true ∧
    search_products envC9 [] true [] = (get_examples "producto".toList, []) :=
  ⟨rfl, (C9_vision_failure_amended envC9 [] rfl rfl rfl rfl).1⟩

/-- Claim C10: for any price string in which the dollar sign is followed by
five or more consecutive digits (no separators), extraction is not treated
as unparsed: the match is not anchored to the end of the number, so the
result is the value of only the first four digits after the dollar sign,
whenever that value lies in [0.01, 50000] (equivalently, is at least 1) —
whatever text follows the digits. -/
theorem C10_leading_digits_only (ds rest : Str)
    (hds : ∀ c ∈ ds, isDigitChar c = true) (hlen : 5 ≤ ds.length)
    (hpos : 1 ≤ digitsToNat (ds.take 4)) :
    extract_price ('$' :: (ds ++ rest)) = (digitsToNat (ds.take 4) : ℚ) := by
  rcases ds with - | ⟨a, ds⟩
  · exact absurd hlen (by simp)
  rcases ds with - | ⟨b, ds⟩
  · exact absurd hlen (by simp)
  rcases ds with - | ⟨c, ds⟩
  · exact absurd hlen (by simp)
  rcases ds with - | ⟨d0, ds⟩
  · exact absurd hlen (by simp)
  rcases ds with - | ⟨e, tl⟩
  · exact absurd hlen (by simp)
  have ha := hds a (by simp)
  have hb := hds b (by simp)
  have hc := hds c (by simp)
  have hd0 := hds d0 (by simp)
  have he := hds e (by simp)
  have htake : (a :: b :: c :: d0 :: e :: tl : Str).take 4 = [a, b, c, d0] := rfl
  rw [htake] at hpos ⊢
  show extract_price ('$' :: a :: b :: c :: d0 :: e :: (tl ++ rest)) = _
  exact extract_price_five ha hb hc hd0 he hpos

theorem C10_leading_digits_only_witness :
    (∀ c ∈ "12345".toList, isDigitChar c = true) ∧
    extract_price ('$' :: ("12345".toList ++ [])) =
      (digitsToNat ("12345".toList.take 4) : ℚ) :=
  ⟨by decide,
   C10_leading_digits_only "12345".toList [] (by decide) (by decide) (by decide)⟩
